import Mathlib

/-!
Verification of the resource-governed caching layer of the
blocket-tradera marketplace aggregator: the LRU memory tier
(`memory-cache.ts`), the disk-backed persistent tier (`file-cache.ts`),
the two-tier orchestrator (`cache-manager.ts`) and the daily API budget
of the Tradera client (`tradera-client.ts`).

Modelling conventions.
JavaScript `Date.now()` is an explicit `now : Nat` parameter (epoch
milliseconds); each method body uses one instant.  A JavaScript value
that may be `null` is `Option V`, `none` standing for `null`.  The
`Map` backing the memory tier is an association list in insertion
order, matching JavaScript `Map` iteration order; the cache directory
of the file tier is an association list from (hashed) keys to the state
of the file on disk (missing, unparseable, or a parsed record) — the
md5 content-hashing of keys is injective in the model.  SOAP transport
and response parsing are abstracted: an upstream call either rejects
(throws) or resolves with the already-parsed payload.
-/

set_option maxHeartbeats 1000000

/-- Lookup in an association list, modelling JavaScript `Map.get`. -/
def mapGet {α : Type} (m : List (String × α)) (k : String) : Option α :=
  match m with
  | [] => none
  | (k₀, v₀) :: rest => if k₀ = k then some v₀ else mapGet rest k

/-- Membership test, modelling `Map.has`. -/
def mapHas {α : Type} (m : List (String × α)) (k : String) : Bool :=
  (mapGet m k).isSome

/-- Removal, modelling `Map.delete` (keys in a `Map` are unique, so
removing every pair with the key equals removing the one entry). -/
def mapDelete {α : Type} (m : List (String × α)) (k : String) : List (String × α) :=
  match m with
  | [] => []
  | (k₀, v₀) :: rest => if k₀ = k then mapDelete rest k else (k₀, v₀) :: mapDelete rest k

/-- Insertion/overwrite, modelling `Map.set`: an existing key is updated
in place, a new key is appended at the end. -/
def mapSet {α : Type} (m : List (String × α)) (k : String) (v : α) : List (String × α) :=
  match m with
  | [] => [(k, v)]
  | (k₀, v₀) :: rest => if k₀ = k then (k, v) :: rest else (k₀, v₀) :: mapSet rest k v

/-- CacheEntry of memory-cache.ts: `{ data, expiresAt, accessedAt }`. -/
structure CacheEntry (V : Type) where
  data : Option V
  expiresAt : Nat
  accessedAt : Nat
deriving DecidableEq

/-- State of the MemoryCache class of memory-cache.ts: the backing map
plus configuration and hit/miss statistics. -/
structure MemoryCache (V : Type) where
  cache : List (String × CacheEntry V)
  maxSize : Nat
  defaultTtl : Nat
  hits : Nat
  misses : Nat
deriving DecidableEq

/-- MemoryCache.get: a missing key is a miss; an entry with
`now > expiresAt` is deleted and counted a miss; otherwise `accessedAt`
is refreshed to `now`, the hit counter incremented, and the stored
`data` (which is `null` if `null` was stored) returned. -/
def MemoryCache.get {V : Type} (c : MemoryCache V) (now : Nat) (key : String) :
    Option V × MemoryCache V :=
  match mapGet c.cache key with
  | none => (none, { c with misses := c.misses + 1 })
  | some entry =>
    if now > entry.expiresAt then
      (none, { c with cache := mapDelete c.cache key, misses := c.misses + 1 })
    else
      (entry.data,
        { c with
            cache := mapSet c.cache key { entry with accessedAt := now },
            hits := c.hits + 1 })

/-- Scan of MemoryCache.evictLRU: fold over the map keeping the first
entry whose `accessedAt` is strictly smaller than the best so far
(`oldestTime` starts at Infinity, so the first entry always replaces
the initial `none`). -/
def findLRU {V : Type} :
    List (String × CacheEntry V) → Option (String × Nat) → Option (String × Nat)
  | [], acc => acc
  | (k, e) :: rest, acc =>
    match acc with
    | none => findLRU rest (some (k, e.accessedAt))
    | some (k₀, t₀) =>
      if e.accessedAt < t₀ then findLRU rest (some (k, e.accessedAt))
      else findLRU rest (some (k₀, t₀))

/-- MemoryCache.evictLRU: delete the entry found by the scan.  The
source guards the deletion with JavaScript truthiness
(`if (oldestKey)`), so no deletion happens when the map is empty — and
also when the least-recently-accessed key is the empty string, which is
falsy. -/
def MemoryCache.evictLRU {V : Type} (c : MemoryCache V) : MemoryCache V :=
  match findLRU c.cache none with
  | none => c
  | some (k₀, _) =>
    if k₀ = "" then c else { c with cache := mapDelete c.cache k₀ }

/-- MemoryCache.set: evict first when at capacity and the key is new
(`cache.size >= maxSize && !cache.has(key)`), then store the entry with
`expiresAt = now + ttl` (ttl defaulting to `defaultTtl`) and
`accessedAt = now`. -/
def MemoryCache.set {V : Type} (c : MemoryCache V) (now : Nat) (key : String)
    (value : Option V) (ttlMs : Option Nat) : MemoryCache V :=
  let c₁ := if c.cache.length ≥ c.maxSize && !(mapHas c.cache key) then c.evictLRU else c
  let ttl := ttlMs.getD c.defaultTtl
  { c₁ with
      cache := mapSet c₁.cache key
        { data := value, expiresAt := now + ttl, accessedAt := now } }

/-- MemoryCache.getAge: `ttlMs = expiresAt - accessedAt`,
`ageMs = now - (expiresAt - ttlMs)` (which algebraically is
`now - accessedAt`), floored to whole seconds.  No expiry check. -/
def MemoryCache.getAge {V : Type} (c : MemoryCache V) (now : Nat) (key : String) :
    Option Int :=
  match mapGet c.cache key with
  | none => none
  | some entry =>
    let ttlMs : Int := (entry.expiresAt : Int) - (entry.accessedAt : Int)
    let ageMs : Int := (now : Int) - ((entry.expiresAt : Int) - ttlMs)
    some (ageMs.fdiv 1000)

/-- State of one file of the file tier on disk: either unparseable
(JSON.parse throws) or a parsed `{ data, expiresAt, createdAt }` record
of file-cache.ts.  A missing file is modelled by absence from the
directory association list. -/
inductive FileRecord (V : Type) where
  | corrupt
  | entry (data : Option V) (expiresAt : Nat) (createdAt : Nat)
deriving DecidableEq

/-- The cache directory of the file tier: association list from hashed
keys to on-disk records; a key not in the list has no file. -/
abbrev FileStore (V : Type) : Type := List (String × FileRecord V)

/-- FileCache.get: a missing file or an unparseable one lands in the
catch block and yields `null` with the directory unchanged; a parsed
record with `now > expiresAt` is deleted and yields `null`; otherwise
the stored `data` is returned. -/
def FileCache.get {V : Type} (fs : FileStore V) (now : Nat) (key : String) :
    Option V × FileStore V :=
  match mapGet fs key with
  | none => (none, fs)
  | some FileRecord.corrupt => (none, fs)
  | some (FileRecord.entry d expiresAt _) =>
    if now > expiresAt then (none, mapDelete fs key) else (d, fs)

/-- FileCache.set: write `{ data, expiresAt = now + ttl, createdAt = now }`. -/
def FileCache.set {V : Type} (fs : FileStore V) (now : Nat) (key : String)
    (value : Option V) (ttl : Nat) : FileStore V :=
  mapSet fs key (FileRecord.entry value (now + ttl) now)

/-- FileCache.getAge: seconds since `createdAt`, floored; `null` when the
file is missing or unparseable; no expiry check. -/
def FileCache.getAge {V : Type} (fs : FileStore V) (now : Nat) (key : String) :
    Option Int :=
  match mapGet fs key with
  | none => none
  | some FileRecord.corrupt => none
  | some (FileRecord.entry _ _ createdAt) =>
    some (((now : Int) - (createdAt : Int)).fdiv 1000)

/-- FileCache.cleanup: scan every record, deleting the expired
(`now > expiresAt`) and the unparseable ones, returning the count
removed together with the surviving directory. -/
def FileCache.cleanup {V : Type} (fs : FileStore V) (now : Nat) : Nat × FileStore V :=
  match fs with
  | [] => (0, [])
  | (_, FileRecord.corrupt) :: rest =>
    let r := FileCache.cleanup rest now
    (r.1 + 1, r.2)
  | (k, FileRecord.entry d expiresAt createdAt) :: rest =>
    let r := FileCache.cleanup rest now
    if now > expiresAt then (r.1 + 1, r.2)
    else (r.1, (k, FileRecord.entry d expiresAt createdAt) :: r.2)

/-- The CacheNamespace union type of cache-manager.ts: the eight
namespace string literals. -/
inductive CacheNamespace where
  | traderaCategories
  | traderaCounties
  | traderaSearch
  | traderaItem
  | traderaFeedback
  | blocketSearch
  | blocketAd
  | blocketCategories
deriving DecidableEq

/-- The namespace's string literal. -/
def CacheNamespace.toString : CacheNamespace → String
  | .traderaCategories => "tradera:categories"
  | .traderaCounties => "tradera:counties"
  | .traderaSearch => "tradera:search"
  | .traderaItem => "tradera:item"
  | .traderaFeedback => "tradera:feedback"
  | .blocketSearch => "blocket:search"
  | .blocketAd => "blocket:ad"
  | .blocketCategories => "blocket:categories"

/-- Whether the namespace string starts with "tradera:" (the durable,
file-backed namespaces of CacheManager.set). -/
def CacheNamespace.isTradera : CacheNamespace → Bool
  | .traderaCategories | .traderaCounties | .traderaSearch
  | .traderaItem | .traderaFeedback => true
  | .blocketSearch | .blocketAd | .blocketCategories => false

/-- CacheManager.getTtl: the namespace splits at the colon and the
second component indexes the CacheTTL table, falling back to 5 minutes
when absent.  Only "categories" and "counties" actually hit the table
(its other keys are searchResults/itemDetails/feedbackSummary/adDetails,
which no namespace's second component matches), so tradera:search,
tradera:item, tradera:feedback, blocket:search and blocket:ad all take
the 5-minute fallback. -/
def CacheManager.getTtl : CacheNamespace → Nat
  | .traderaCategories => 24 * 60 * 60 * 1000
  | .traderaCounties => 7 * 24 * 60 * 60 * 1000
  | .traderaSearch => 5 * 60 * 1000
  | .traderaItem => 5 * 60 * 1000
  | .traderaFeedback => 5 * 60 * 1000
  | .blocketSearch => 5 * 60 * 1000
  | .blocketAd => 5 * 60 * 1000
  | .blocketCategories => 60 * 60 * 1000

/-- CacheManager.makeKey: the composite key "namespace:key". -/
def CacheManager.makeKey (ns : CacheNamespace) (key : String) : String :=
  ns.toString ++ ":" ++ key

/-- Result record of CacheManager.get / getOrFetch:
`{ data, cached, ageSeconds }`. -/
structure GetResult (V : Type) where
  data : Option V
  cached : Bool
  ageSeconds : Option Int
deriving DecidableEq

/-- State of the CacheManager class: the two tiers and the file-cache
switch. -/
structure CacheManager (V : Type) where
  memory : MemoryCache V
  file : FileStore V
  enableFileCache : Bool
deriving DecidableEq

/-- CacheManager.get: memory tier first (on a non-null hit, report
`cached = true` with the memory tier's age, computed after the hit
refreshed `accessedAt`); then the file tier if enabled (on a non-null
hit, promote into the memory tier with the namespace TTL and report the
file tier's age); otherwise a miss. -/
def CacheManager.get {V : Type} (st : CacheManager V) (ns : CacheNamespace)
    (key : String) (now : Nat) : GetResult V × CacheManager V :=
  let ck := CacheManager.makeKey ns key
  let m := st.memory.get now ck
  match m.1 with
  | some v =>
    (⟨some v, true, m.2.getAge now ck⟩, { st with memory := m.2 })
  | none =>
    if st.enableFileCache then
      let f := FileCache.get st.file now ck
      match f.1 with
      | some v =>
        let mem₂ := m.2.set now ck (some v) (some (CacheManager.getTtl ns))
        (⟨some v, true, FileCache.getAge f.2 now ck⟩,
          { st with memory := mem₂, file := f.2 })
      | none => (⟨none, false, none⟩, { st with memory := m.2, file := f.2 })
    else
      (⟨none, false, none⟩, { st with memory := m.2 })

/-- CacheManager.set: always write the memory tier with
`customTtl ?? getTtl(namespace)`; additionally write the file tier when
it is enabled and the namespace starts with "tradera:". -/
def CacheManager.set {V : Type} (st : CacheManager V) (ns : CacheNamespace)
    (key : String) (value : Option V) (customTtl : Option Nat) (now : Nat) :
    CacheManager V :=
  let ck := CacheManager.makeKey ns key
  let ttl := customTtl.getD (CacheManager.getTtl ns)
  let mem₂ := st.memory.set now ck value (some ttl)
  if st.enableFileCache && ns.isTradera then
    { st with memory := mem₂, file := FileCache.set st.file now ck value ttl }
  else
    { st with memory := mem₂ }

/-- CacheManager.getOrFetch: return the cached value when `get` yields
non-null data; otherwise invoke the fetch (its resolved value is the
`fetchResult` parameter, `none` when it resolves to `null`), store it
via `set`, and return it marked not cached.  The middle component of
the result records whether the fetch was invoked. -/
def CacheManager.getOrFetch {V : Type} (st : CacheManager V) (ns : CacheNamespace)
    (key : String) (fetchResult : Option V) (customTtl : Option Nat) (now : Nat) :
    GetResult V × Bool × CacheManager V :=
  let g := st.get ns key now
  match g.1.data with
  | some v => (⟨some v, true, g.1.ageSeconds⟩, false, g.2)
  | none =>
    let st₂ := g.2.set ns key fetchResult customTtl now
    (⟨fetchResult, false, none⟩, true, st₂)

/-- TraderaApiBudget of tradera-client.ts:
`{ dailyLimit, used, resetTime, remaining }`.  `remaining` is kept as an
integer because it is recomputed as `dailyLimit - used` with JavaScript
number arithmetic. -/
structure TraderaApiBudget where
  dailyLimit : Nat
  used : Nat
  resetTime : Nat
  remaining : Int
deriving DecidableEq

/-- Milliseconds in a day. -/
def msPerDay : Nat := 24 * 60 * 60 * 1000

/-- TraderaClient.getNextResetTime: midnight UTC of the calendar day
after `now` (take the current UTC day, add one day, zero the time of
day). -/
def TraderaClient.getNextResetTime (now : Nat) : Nat :=
  (now / msPerDay + 1) * msPerDay

/-- TraderaClient.checkBudgetReset: only when `now` is strictly past
`resetTime` (`Date.now() > resetTime.getTime()`), zero `used`, restore
`remaining` to `dailyLimit`, and move `resetTime` to the next midnight
UTC boundary. -/
def TraderaClient.checkBudgetReset (b : TraderaApiBudget) (now : Nat) :
    TraderaApiBudget :=
  if now > b.resetTime then
    { b with
        used := 0
        remaining := (b.dailyLimit : Int)
        resetTime := TraderaClient.getNextResetTime now }
  else b

/-- TraderaClient.canMakeApiCall: reset check first, then
`remaining > 0`; returns the answer together with the (possibly reset)
budget state. -/
def TraderaClient.canMakeApiCall (b : TraderaApiBudget) (now : Nat) :
    Bool × TraderaApiBudget :=
  let b₁ := TraderaClient.checkBudgetReset b now
  (decide (b₁.remaining > 0), b₁)

/-- TraderaClient.getBudget: reset check first, then a copy of the
budget; the first component is the returned snapshot, the second the
budget state after the call. -/
def TraderaClient.getBudget (b : TraderaApiBudget) (now : Nat) :
    TraderaApiBudget × TraderaApiBudget :=
  let b₁ := TraderaClient.checkBudgetReset b now
  (b₁, b₁)

/-- TraderaClient.recordApiCall: reset check, then `used += 1` and
`remaining = dailyLimit - used`. -/
def TraderaClient.recordApiCall (b : TraderaApiBudget) (now : Nat) :
    TraderaApiBudget :=
  let b₁ := TraderaClient.checkBudgetReset b now
  { b₁ with
      used := b₁.used + 1
      remaining := (b₁.dailyLimit : Int) - ((b₁.used + 1 : Nat) : Int) }

/-- Outcome of one Tradera client operation: a returned value, a thrown
budget-exhaustion error carrying `used`, `dailyLimit` and `resetTime`
(the Error built in TraderaClient.search), or any other thrown error. -/
inductive OpOutcome (α : Type) where
  | ok (v : α)
  | quotaError (used : Nat) (dailyLimit : Nat) (resetTime : Nat)
  | err
deriving DecidableEq

/-- The awaited SOAP call of one operation: it either rejects (the
`await` throws) or resolves with the already-parsed payload. -/
inductive UpstreamCall (α : Type) where
  | rejected
  | resolved (v : α)

/-- TraderaSearchResult as far as the control flow of
TraderaClient.search touches it: the parsed items, the `cached` flag
and the `cache_age_seconds` field; the count/paging fields are derived
from the same payload and carry no logic of their own. -/
structure TraderaSearchResult (ι : Type) where
  items : List ι
  cached : Bool
  cacheAgeSeconds : Int
deriving DecidableEq

/-- TraderaClient.search: cache lookup under tradera:search (skipped on
forceRefresh; a hit is returned re-marked `cached = true` with
`cache_age_seconds = ageSeconds ?? 0`); then the budget gate, which
THROWS a budget-exhaustion Error carrying used/dailyLimit/resetTime;
then the SOAP call — a rejection is logged and re-thrown with the
budget NOT yet recorded; on resolution the call is recorded, the result
built with `cached = false`, cached for 30 minutes
(CacheTTL.tradera.searchResults) and returned.  `params` stands for the
JSON-stringified search parameters used as the cache key. -/
def TraderaClient.search {ι : Type} (st : CacheManager (TraderaSearchResult ι))
    (b : TraderaApiBudget) (now : Nat) (params : String) (forceRefresh : Bool)
    (upstream : UpstreamCall (List ι)) :
    OpOutcome (TraderaSearchResult ι) × CacheManager (TraderaSearchResult ι) ×
      TraderaApiBudget :=
  let g := if forceRefresh then (⟨none, false, none⟩, st)
           else st.get .traderaSearch params now
  match g.1.data with
  | some r => (.ok { r with cached := true, cacheAgeSeconds := g.1.ageSeconds.getD 0 }, g.2, b)
  | none =>
    let c := TraderaClient.canMakeApiCall b now
    if !c.1 then
      (.quotaError c.2.used c.2.dailyLimit c.2.resetTime, g.2, c.2)
    else
      match upstream with
      | .rejected => (.err, g.2, c.2)
      | .resolved items =>
        let b₂ := TraderaClient.recordApiCall c.2 now
        let result : TraderaSearchResult ι :=
          { items := items, cached := false, cacheAgeSeconds := 0 }
        let st₂ := g.2.set .traderaSearch params (some result) (some (30 * 60 * 1000)) now
        (.ok result, st₂, b₂)

/-- TraderaClient.getItem: cache lookup under tradera:item (skipped on
forceRefresh); when the budget is exhausted, log and return `null`;
a rejected SOAP call is caught and returns `null`; on resolution the
call is recorded, then `null` is returned if the response carries no
item, else the item is cached for 15 minutes and returned. -/
def TraderaClient.getItem {ι : Type} (st : CacheManager ι) (b : TraderaApiBudget)
    (now : Nat) (itemId : String) (forceRefresh : Bool)
    (upstream : UpstreamCall (Option ι)) :
    OpOutcome (Option ι) × CacheManager ι × TraderaApiBudget :=
  let g := if forceRefresh then (⟨none, false, none⟩, st)
           else st.get .traderaItem itemId now
  match g.1.data with
  | some item => (.ok (some item), g.2, b)
  | none =>
    let c := TraderaClient.canMakeApiCall b now
    if !c.1 then
      (.ok none, g.2, c.2)
    else
      match upstream with
      | .rejected => (.ok none, g.2, c.2)
      | .resolved resp =>
        let b₂ := TraderaClient.recordApiCall c.2 now
        match resp with
        | none => (.ok none, g.2, b₂)
        | some item =>
          let st₂ := g.2.set .traderaItem itemId (some item) (some (15 * 60 * 1000)) now
          (.ok (some item), st₂, b₂)

/-- TraderaClient.getCategories: cache lookup under tradera:categories
with key "all" (skipped on forceRefresh); when the budget is exhausted,
log and return the EMPTY LIST; a rejected SOAP call is caught and
returns the empty list; on resolution the call is recorded and the
parsed categories cached for 24 hours and returned. -/
def TraderaClient.getCategories {γ : Type} (st : CacheManager (List γ))
    (b : TraderaApiBudget) (now : Nat) (forceRefresh : Bool)
    (upstream : UpstreamCall (List γ)) :
    OpOutcome (List γ) × CacheManager (List γ) × TraderaApiBudget :=
  let g := if forceRefresh then (⟨none, false, none⟩, st)
           else st.get .traderaCategories "all" now
  match g.1.data with
  | some cats => (.ok cats, g.2, b)
  | none =>
    let c := TraderaClient.canMakeApiCall b now
    if !c.1 then
      (.ok [], g.2, c.2)
    else
      match upstream with
      | .rejected => (.ok [], g.2, c.2)
      | .resolved cats =>
        let b₂ := TraderaClient.recordApiCall c.2 now
        let st₂ := g.2.set .traderaCategories "all" (some cats) (some (24 * 60 * 60 * 1000)) now
        (.ok cats, st₂, b₂)

/-- TraderaClient.getCounties: cache lookup under tradera:counties with
key "all" (skipped on forceRefresh); when the budget is exhausted, log
and return the EMPTY LIST; a rejected SOAP call is caught and returns
the empty list; on resolution the call is recorded and the counties
cached for 7 days and returned. -/
def TraderaClient.getCounties {γ : Type} (st : CacheManager (List γ))
    (b : TraderaApiBudget) (now : Nat) (forceRefresh : Bool)
    (upstream : UpstreamCall (List γ)) :
    OpOutcome (List γ) × CacheManager (List γ) × TraderaApiBudget :=
  let g := if forceRefresh then (⟨none, false, none⟩, st)
           else st.get .traderaCounties "all" now
  match g.1.data with
  | some cs => (.ok cs, g.2, b)
  | none =>
    let c := TraderaClient.canMakeApiCall b now
    if !c.1 then
      (.ok [], g.2, c.2)
    else
      match upstream with
      | .rejected => (.ok [], g.2, c.2)
      | .resolved cs =>
        let b₂ := TraderaClient.recordApiCall c.2 now
        let st₂ := g.2.set .traderaCounties "all" (some cs) (some (7 * 24 * 60 * 60 * 1000)) now
        (.ok cs, st₂, b₂)

/-- TraderaClient.getFeedbackSummary: cache lookup under
tradera:feedback (no forceRefresh parameter); when the budget is
exhausted, return `null`; a rejected SOAP call is caught and returns
`null`; on resolution the call is recorded, then `null` is returned if
the response is empty, else the summary is cached for 1 hour and
returned. -/
def TraderaClient.getFeedbackSummary {φ : Type} (st : CacheManager φ)
    (b : TraderaApiBudget) (now : Nat) (userId : String)
    (upstream : UpstreamCall (Option φ)) :
    OpOutcome (Option φ) × CacheManager φ × TraderaApiBudget :=
  let g := st.get .traderaFeedback userId now
  match g.1.data with
  | some s => (.ok (some s), g.2, b)
  | none =>
    let c := TraderaClient.canMakeApiCall b now
    if !c.1 then
      (.ok none, g.2, c.2)
    else
      match upstream with
      | .rejected => (.ok none, g.2, c.2)
      | .resolved resp =>
        let b₂ := TraderaClient.recordApiCall c.2 now
        match resp with
        | none => (.ok none, g.2, b₂)
        | some s =>
          let st₂ := g.2.set .traderaFeedback userId (some s) (some (60 * 60 * 1000)) now
          (.ok (some s), st₂, b₂)

theorem mapGet_mapSet_self {α : Type} (m : List (String × α)) (k : String) (v : α) :
    mapGet (mapSet m k v) k = some v := by
  induction m with
  | nil => simp [mapSet, mapGet]
  | cons p rest ih =>
    obtain ⟨k₀, v₀⟩ := p
    by_cases h : k₀ = k <;> simp [mapSet, mapGet, h, ih]

theorem mapGet_mapSet_of_ne {α : Type} (m : List (String × α)) (k k' : String) (v : α)
    (h : k' ≠ k) : mapGet (mapSet m k v) k' = mapGet m k' := by
  have hk : ¬ k = k' := fun hh => h hh.symm
  induction m with
  | nil => simp [mapSet, mapGet, hk]
  | cons p rest ih =>
    obtain ⟨k₀, v₀⟩ := p
    by_cases h₀ : k₀ = k
    · subst h₀
      simp [mapSet, mapGet, hk]
    · simp [mapSet, mapGet, h₀, ih]

theorem mapGet_mapDelete_self {α : Type} (m : List (String × α)) (k : String) :
    mapGet (mapDelete m k) k = none := by
  induction m with
  | nil => simp [mapDelete, mapGet]
  | cons p rest ih =>
    obtain ⟨k₀, v₀⟩ := p
    by_cases h : k₀ = k <;> simp [mapDelete, mapGet, h, ih]

theorem mapGet_mapDelete_of_ne {α : Type} (m : List (String × α)) (k k' : String)
    (h : k' ≠ k) : mapGet (mapDelete m k) k' = mapGet m k' := by
  induction m with
  | nil => simp [mapDelete, mapGet]
  | cons p rest ih =>
    obtain ⟨k₀, v₀⟩ := p
    by_cases h₀ : k₀ = k
    · subst h₀
      have hne : ¬ k₀ = k' := fun hh => h hh.symm
      simp [mapDelete, mapGet, hne, ih]
    · simp [mapDelete, mapGet, h₀, ih]

theorem mapGet_eq_none_of_not_mem {α : Type} (m : List (String × α)) (k : String)
    (h : mapGet m k = none) : ∀ p ∈ m, p.1 ≠ k := by
  induction m with
  | nil => simp
  | cons p rest ih =>
    obtain ⟨k₀, v₀⟩ := p
    by_cases h₀ : k₀ = k
    · simp [mapGet, h₀] at h
    · simp only [mapGet, if_neg h₀] at h
      intro q hq
      rcases List.mem_cons.mp hq with hq | hq
      · subst hq; exact h₀
      · exact ih h q hq

theorem length_mapSet_of_has {α : Type} (m : List (String × α)) (k : String) (v : α)
    (h : mapHas m k = true) : (mapSet m k v).length = m.length := by
  induction m with
  | nil => simp [mapHas, mapGet] at h
  | cons p rest ih =>
    obtain ⟨k₀, v₀⟩ := p
    by_cases h₀ : k₀ = k
    · simp [mapSet, h₀]
    · simp only [mapHas, mapGet, if_neg h₀] at h
      simp [mapSet, h₀, ih (by simpa [mapHas] using h)]

theorem length_mapSet_of_not_has {α : Type} (m : List (String × α)) (k : String) (v : α)
    (h : mapHas m k = false) : (mapSet m k v).length = m.length + 1 := by
  induction m with
  | nil => simp [mapSet]
  | cons p rest ih =>
    obtain ⟨k₀, v₀⟩ := p
    by_cases h₀ : k₀ = k
    · simp [mapHas, mapGet, h₀] at h
    · simp only [mapHas, mapGet, if_neg h₀] at h
      simp [mapSet, h₀, ih (by simpa [mapHas] using h)]

theorem length_mapDelete_le {α : Type} (m : List (String × α)) (k : String) :
    (mapDelete m k).length ≤ m.length := by
  induction m with
  | nil => simp [mapDelete]
  | cons p rest ih =>
    obtain ⟨k₀, v₀⟩ := p
    by_cases h₀ : k₀ = k <;> simp [mapDelete, h₀] <;> omega

theorem length_mapDelete_lt {α : Type} (m : List (String × α)) (k : String)
    (h : mapHas m k = true) : (mapDelete m k).length < m.length := by
  induction m with
  | nil => simp [mapHas, mapGet] at h
  | cons p rest ih =>
    obtain ⟨k₀, v₀⟩ := p
    by_cases h₀ : k₀ = k
    · have := length_mapDelete_le rest k
      simp [mapDelete, h₀]
      omega
    · simp only [mapHas, mapGet, if_neg h₀] at h
      have := ih (by simpa [mapHas] using h)
      simp [mapDelete, h₀]
      omega

theorem mapDelete_eq_self {α : Type} (m : List (String × α)) (k : String)
    (h : ∀ p ∈ m, p.1 ≠ k) : mapDelete m k = m := by
  induction m with
  | nil => simp [mapDelete]
  | cons p rest ih =>
    obtain ⟨k₀, v₀⟩ := p
    have hk₀ : k₀ ≠ k := h (k₀, v₀) (List.mem_cons_self _ _)
    simp [mapDelete, hk₀, ih (fun q hq => h q (List.mem_cons_of_mem _ hq))]

theorem length_mapDelete_of_nodup {α : Type} (m : List (String × α)) (k : String)
    (hd : (m.map Prod.fst).Nodup) (h : mapHas m k = true) :
    (mapDelete m k).length + 1 = m.length := by
  induction m with
  | nil => simp [mapHas, mapGet] at h
  | cons p rest ih =>
    obtain ⟨k₀, v₀⟩ := p
    simp only [List.map_cons, List.nodup_cons] at hd
    by_cases h₀ : k₀ = k
    · subst h₀
      have heq : mapDelete rest k₀ = rest := by
        apply mapDelete_eq_self
        intro q hq hqk
        exact hd.1 (hqk ▸ List.mem_map_of_mem Prod.fst hq)
      simp [mapDelete, heq]
    · simp only [mapHas, mapGet, if_neg h₀] at h
      have := ih hd.2 (by simpa [mapHas] using h)
      simp [mapDelete, h₀]
      omega

theorem findLRU_acc_le {V : Type} (l : List (String × CacheEntry V)) :
    ∀ k t k₀ t₀, findLRU l (some (k, t)) = some (k₀, t₀) → t₀ ≤ t := by
  induction l with
  | nil =>
    intro k t k₀ t₀ h
    simp [findLRU] at h
    omega
  | cons p rest ih =>
    obtain ⟨k₁, e⟩ := p
    intro k t k₀ t₀ h
    simp only [findLRU] at h
    by_cases hlt : e.accessedAt < t
    · rw [if_pos hlt] at h
      exact le_trans (ih _ _ _ _ h) (le_of_lt hlt)
    · rw [if_neg hlt] at h
      exact ih _ _ _ _ h

theorem findLRU_min {V : Type} (l : List (String × CacheEntry V)) :
    ∀ acc k₀ t₀, findLRU l acc = some (k₀, t₀) →
      ∀ p ∈ l, t₀ ≤ p.2.accessedAt := by
  induction l with
  | nil => simp
  | cons q rest ih =>
    obtain ⟨k₁, e⟩ := q
    intro acc k₀ t₀ h p hp
    rcases List.mem_cons.mp hp with hp | hp
    · subst hp
      match acc with
      | none =>
        simp only [findLRU] at h
        exact findLRU_acc_le rest _ _ _ _ h
      | some (k₂, t₂) =>
        simp only [findLRU] at h
        by_cases hlt : e.accessedAt < t₂
        · rw [if_pos hlt] at h
          exact findLRU_acc_le rest _ _ _ _ h
        · rw [if_neg hlt] at h
          have h1 := findLRU_acc_le rest _ _ _ _ h
          show t₀ ≤ e.accessedAt
          omega
    · match acc with
      | none =>
        simp only [findLRU] at h
        exact ih _ _ _ h p hp
      | some (k₂, t₂) =>
        simp only [findLRU] at h
        by_cases hlt : e.accessedAt < t₂
        · rw [if_pos hlt] at h
          exact ih _ _ _ h p hp
        · rw [if_neg hlt] at h
          exact ih _ _ _ h p hp

theorem findLRU_mem {V : Type} (l : List (String × CacheEntry V)) :
    ∀ acc k₀ t₀, findLRU l acc = some (k₀, t₀) →
      acc = some (k₀, t₀) ∨ ∃ e, (k₀, e) ∈ l ∧ e.accessedAt = t₀ := by
  induction l with
  | nil =>
    intro acc k₀ t₀ h
    exact Or.inl (by simpa [findLRU] using h)
  | cons q rest ih =>
    obtain ⟨k₁, e⟩ := q
    intro acc k₀ t₀ h
    match acc with
    | none =>
      simp only [findLRU] at h
      rcases ih _ _ _ h with hacc | ⟨e', he', ht'⟩
      · simp only [Option.some.injEq, Prod.mk.injEq] at hacc
        right
        exact ⟨e, by simp [hacc.1], by simp [hacc.2]⟩
      · exact Or.inr ⟨e', List.mem_cons_of_mem _ he', ht'⟩
    | some (k₂, t₂) =>
      simp only [findLRU] at h
      by_cases hlt : e.accessedAt < t₂
      · rw [if_pos hlt] at h
        rcases ih _ _ _ h with hacc | ⟨e', he', ht'⟩
        · simp only [Option.some.injEq, Prod.mk.injEq] at hacc
          right
          exact ⟨e, by simp [hacc.1], by simp [hacc.2]⟩
        · exact Or.inr ⟨e', List.mem_cons_of_mem _ he', ht'⟩
      · rw [if_neg hlt] at h
        rcases ih _ _ _ h with hacc | ⟨e', he', ht'⟩
        · exact Or.inl hacc
        · exact Or.inr ⟨e', List.mem_cons_of_mem _ he', ht'⟩

theorem findLRU_isSome {V : Type} (l : List (String × CacheEntry V)) :
    ∀ p, ∃ q, findLRU l (some p) = some q := by
  induction l with
  | nil => intro p; exact ⟨p, rfl⟩
  | cons q rest ih =>
    obtain ⟨k₁, e⟩ := q
    intro p
    obtain ⟨k₂, t₂⟩ := p
    simp only [findLRU]
    by_cases hlt : e.accessedAt < t₂
    · rw [if_pos hlt]; exact ih _
    · rw [if_neg hlt]; exact ih _

theorem fileCleanup_no_corrupt {V : Type} (fs : FileStore V) (now : Nat) :
    ∀ p ∈ (FileCache.cleanup fs now).2, p.2 ≠ FileRecord.corrupt := by
  induction fs with
  | nil => simp [FileCache.cleanup]
  | cons q rest ih =>
    obtain ⟨k, r⟩ := q
    match r with
    | FileRecord.corrupt =>
      simpa [FileCache.cleanup] using ih
    | FileRecord.entry d expiresAt createdAt =>
      simp only [FileCache.cleanup]
      by_cases h : now > expiresAt
      · simpa [h] using ih
      · simp only [if_neg h]
        intro p hp
        rcases List.mem_cons.mp hp with hp | hp
        · subst hp; simp
        · exact ih p hp

/-- C4 counterexample: the claim says the expiry boundary instant
`now = expiresAt` is already expired, but both tiers use the strict
comparison `Date.now() > expiresAt`.  Setting at time 0 with
`ttl = 1000` gives `expiresAt = 1000`, and a `get` at exactly 1000
still returns the value in the memory tier and in the file tier. -/
theorem expiry_boundary_cex :
    ((MemoryCache.set ⟨[], 100, 300000, 0, 0⟩ 0 "k" (some (7 : Nat)) (some 1000)).get
        1000 "k").1 = some 7 ∧
    (FileCache.get (FileCache.set ([] : FileStore Nat) 0 "k" (some 7) 1000)
        1000 "k").1 = some 7 := by
  constructor <;> rfl

/-- C4 (amended): in both tiers, after `set(key, v, ttl)` at time `now`
(so `expiresAt = now + ttl`), `get` at time `now'` returns `v` whenever
`now' ≤ expiresAt` — including the boundary instant `now' = expiresAt` —
and returns absent once `now' > expiresAt` (boundary exclusive on the
expiry side). -/
theorem expiry_boundary {V : Type} (c : MemoryCache V) (fs : FileStore V)
    (now now' : Nat) (k : String) (d : Option V) (ttl : Nat) :
    ((c.set now k d (some ttl)).get now' k).1 =
      (if now' > now + ttl then none else d) ∧
    (FileCache.get (FileCache.set fs now k d ttl) now' k).1 =
      (if now' > now + ttl then none else d) := by
  constructor
  · by_cases hh : now' > now + ttl <;>
      simp [MemoryCache.set, MemoryCache.get, mapGet_mapSet_self, hh]
  · by_cases hh : now' > now + ttl <;>
      simp [FileCache.set, FileCache.get, mapGet_mapSet_self, hh]

/-- C6 counterexample: the claim says a `get` on a corrupt record
returns absent AND deletes the record from disk, but FileCache.get's
catch block only returns `null`: the directory is unchanged, and a
subsequent scan still finds the corrupt record. -/
theorem fileCache_corrupt_get_cex :
    FileCache.get ([("k", FileRecord.corrupt)] : FileStore Nat) 0 "k" =
      (none, [("k", FileRecord.corrupt)]) ∧
    mapGet (FileCache.get ([("k", FileRecord.corrupt)] : FileStore Nat) 0 "k").2 "k" =
      some FileRecord.corrupt := by
  constructor <;> rfl

/-- C6 (amended): a `get` for a key whose persistent-tier record is
corrupt (unparseable) returns absent but leaves the corrupt record on
disk (its deletion is NOT a side effect of the read); corrupt records
are removed by the separate `cleanup` sweep, after which no corrupt
record survives. -/
theorem fileCache_corrupt_get {V : Type} (fs : FileStore V) (k : String) (now : Nat)
    (h : mapGet fs k = some FileRecord.corrupt) :
    FileCache.get fs now k = (none, fs) ∧
    mapGet (FileCache.get fs now k).2 k = some FileRecord.corrupt ∧
    (∀ p ∈ (FileCache.cleanup fs now).2, p.2 ≠ FileRecord.corrupt) := by
  refine ⟨?_, ?_, fileCleanup_no_corrupt fs now⟩
  · simp [FileCache.get, h]
  · simp [FileCache.get, h]

/-- Witness for the C6 theorem at the concrete directory holding one
corrupt record. -/
theorem fileCache_corrupt_get_witness :
    mapGet ([("k", FileRecord.corrupt)] : FileStore Nat) "k" =
      some FileRecord.corrupt ∧
    FileCache.get ([("k", FileRecord.corrupt)] : FileStore Nat) 5 "k" =
      (none, [("k", FileRecord.corrupt)]) :=
  ⟨by rfl, (fileCache_corrupt_get [("k", FileRecord.corrupt)] "k" 5 (by rfl)).1⟩

/-- C7 counterexample: the claim resets the budget whenever
`now ≥ resetTime`, but checkBudgetReset uses the strict comparison
`Date.now() > resetTime`.  At exactly `now = resetTime = 1000` nothing
is reset: `used` stays 5 and `getBudget` still reports 5. -/
theorem budget_reset_boundary_cex :
    TraderaClient.checkBudgetReset ⟨100, 5, 1000, 95⟩ 1000 = ⟨100, 5, 1000, 95⟩ ∧
    (TraderaClient.getBudget ⟨100, 5, 1000, 95⟩ 1000).1.used = 5 := by
  constructor <;> rfl

/-- C7 (amended): for every budget-touching operation (canMakeApiCall,
getBudget, recordApiCall), if `now` is STRICTLY past `resetTime` at the
start of the operation then the budget is first reset: `used` becomes
0, `remaining` becomes `dailyLimit`, and `resetTime` is recomputed to
the next daily (midnight UTC) boundary strictly after `now` — the least
multiple of 24h strictly greater than `now`.  Consequently once
`resetTime` has passed, `canCall()` is true again (for a positive
`dailyLimit`) and `used = 0`. -/
theorem budget_reset_after_boundary (b : TraderaApiBudget) (now : Nat)
    (h : now > b.resetTime) :
    TraderaClient.checkBudgetReset b now =
      ⟨b.dailyLimit, 0, TraderaClient.getNextResetTime now, (b.dailyLimit : Int)⟩ ∧
    now < TraderaClient.getNextResetTime now ∧
    TraderaClient.getNextResetTime now % msPerDay = 0 ∧
    (∀ m, now < m → m % msPerDay = 0 → TraderaClient.getNextResetTime now ≤ m) ∧
    (TraderaClient.getBudget b now).1.used = 0 ∧
    (0 < b.dailyLimit → (TraderaClient.canMakeApiCall b now).1 = true) ∧
    (TraderaClient.recordApiCall b now).used = 1 := by
  have hday : 0 < msPerDay := by decide
  have hreset : TraderaClient.checkBudgetReset b now =
      ⟨b.dailyLimit, 0, TraderaClient.getNextResetTime now, (b.dailyLimit : Int)⟩ := by
    simp [TraderaClient.checkBudgetReset, h]
  refine ⟨hreset, ?_, ?_, ?_, ?_, ?_, ?_⟩
  · exact (Nat.div_lt_iff_lt_mul hday).mp (Nat.lt_succ_self _)
  · exact Nat.mul_mod_left _ _
  · intro m hm hmod
    have hm' : m = m / msPerDay * msPerDay := (Nat.div_mul_cancel (Nat.dvd_of_mod_eq_zero hmod)).symm
    have : now / msPerDay < m / msPerDay := by
      apply (Nat.div_lt_iff_lt_mul hday).mpr
      omega
    calc TraderaClient.getNextResetTime now = (now / msPerDay + 1) * msPerDay := rfl
      _ ≤ m / msPerDay * msPerDay := Nat.mul_le_mul_right _ (by omega)
      _ = m := hm'.symm
  · simp [TraderaClient.getBudget, hreset]
  · intro hpos
    simp [TraderaClient.canMakeApiCall, hreset]
    exact_mod_cast hpos
  · simp [TraderaClient.recordApiCall, hreset]

/-- Witness for the C7 theorem: budget with `resetTime = 1000`
exercised at `now = 2000`. -/
theorem budget_reset_after_boundary_witness :
    (2000 : Nat) > 1000 ∧
    TraderaClient.checkBudgetReset ⟨100, 5, 1000, 95⟩ 2000 =
      ⟨100, 0, TraderaClient.getNextResetTime 2000, (100 : Int)⟩ :=
  ⟨by decide, (budget_reset_after_boundary ⟨100, 5, 1000, 95⟩ 2000 (by decide)).1⟩

/-- C9 (confirmed): on a memory-tier hit the orchestrator's `get`
reports `ageSeconds` computed by MemoryCache.getAge, which equals the
whole seconds elapsed since the entry's last access
(`floor((now - accessedAt) / 1000)`, second conjunct); and since the
hit itself has already refreshed `accessedAt` to `now` before the age
is computed, a memory-tier hit always reports `ageSeconds = 0`,
regardless of when the entry was created (first conjunct). -/
theorem memory_hit_age_zero {V : Type} (st : CacheManager V) (ns : CacheNamespace)
    (key : String) (now : Nat) (e : CacheEntry V) (v : V)
    (he : mapGet st.memory.cache (CacheManager.makeKey ns key) = some e)
    (hexp : ¬ now > e.expiresAt) (hd : e.data = some v) :
    (st.get ns key now).1 = ⟨some v, true, some 0⟩ ∧
    (∀ (c : MemoryCache V) (k : String) (t : Nat) (e' : CacheEntry V),
      mapGet c.cache k = some e' →
      MemoryCache.getAge c t k =
        some (((t : Int) - (e'.accessedAt : Int)).fdiv 1000)) := by
  constructor
  · have hm : st.memory.get now (CacheManager.makeKey ns key) =
        (e.data, { st.memory with
          cache := mapSet st.memory.cache (CacheManager.makeKey ns key)
            { e with accessedAt := now },
          hits := st.memory.hits + 1 }) := by
      simp [MemoryCache.get, he, hexp]
    simp only [CacheManager.get, hm, hd]
    simp [MemoryCache.getAge, mapGet_mapSet_self]
  · intro c k t e' h
    simp only [MemoryCache.getAge, h]
    congr 1
    ring_nf

/-- Witness for the C9 theorem: a memory tier holding one entry created
at 2000 and hit at 4000 still reports age 0. -/
theorem memory_hit_age_zero_witness :
    (CacheManager.get (V := Nat)
        ⟨⟨[("tradera:item:9", ⟨some 5, 10000, 2000⟩)], 100, 300000, 0, 0⟩, [], true⟩
        CacheNamespace.traderaItem "9" 4000).1 = ⟨some 5, true, some 0⟩ :=
  (memory_hit_age_zero
      ⟨⟨[("tradera:item:9", ⟨some 5, 10000, 2000⟩)], 100, 300000, 0, 0⟩, [], true⟩
      CacheNamespace.traderaItem "9" 4000 ⟨some 5, 10000, 2000⟩ 5
      (by rfl) (by decide) (by rfl)).1

/-- C8 (confirmed): for a key present and unexpired only in the
persistent tier, the orchestrator's `get` returns the value with
`cached = true` and with `ageSeconds` computed from the record's
original `createdAt` (not the promotion time), and promotes the value
into the memory tier with the namespace TTL, so that a memory-tier
`get` at any instant up to `now + getTtl ns` returns it. -/
theorem persistent_promotion {V : Type} (st : CacheManager V) (ns : CacheNamespace)
    (key : String) (now now' : Nat) (v : V) (expiresAt createdAt : Nat)
    (hen : st.enableFileCache = true)
    (hmem : mapGet st.memory.cache (CacheManager.makeKey ns key) = none)
    (hfile : mapGet st.file (CacheManager.makeKey ns key) =
      some (FileRecord.entry (some v) expiresAt createdAt))
    (hexp : ¬ now > expiresAt) :
    (st.get ns key now).1 =
      ⟨some v, true, some (((now : Int) - (createdAt : Int)).fdiv 1000)⟩ ∧
    (¬ now' > now + CacheManager.getTtl ns →
      (((st.get ns key now).2).memory.get now' (CacheManager.makeKey ns key)).1 =
        some v) := by
  have hm : st.memory.get now (CacheManager.makeKey ns key) =
      (none, { st.memory with misses := st.memory.misses + 1 }) := by
    simp [MemoryCache.get, hmem]
  have hf : FileCache.get st.file now (CacheManager.makeKey ns key) = (some v, st.file) := by
    simp [FileCache.get, hfile, hexp]
  constructor
  · simp only [CacheManager.get, hm, hf, hen, if_true]
    simp [FileCache.getAge, hfile]
  · intro hexp'
    simp only [CacheManager.get, hm, hf, hen, if_true]
    simp [MemoryCache.set, MemoryCache.get, mapGet_mapSet_self, hexp']

/-- Witness for the C8 theorem: a record created at 1000 and promoted
at 3000 reports age from `createdAt` (2 seconds). -/
theorem persistent_promotion_witness :
    ¬ (3000 : Nat) > 5000 ∧
    (CacheManager.get (V := Nat)
        ⟨⟨[], 100, 300000, 0, 0⟩,
          [("tradera:item:1", FileRecord.entry (some 7) 5000 1000)], true⟩
        CacheNamespace.traderaItem "1" 3000).1 =
      ⟨some 7, true, some (((3000 : Int) - (1000 : Int)).fdiv 1000)⟩ :=
  ⟨by decide,
    (persistent_promotion
        ⟨⟨[], 100, 300000, 0, 0⟩,
          [("tradera:item:1", FileRecord.entry (some 7) 5000 1000)], true⟩
        CacheNamespace.traderaItem "1" 3000 3000 7 5000 1000
        (by rfl) (by rfl) (by rfl) (by decide)).1⟩

theorem CacheManager.get_miss {V : Type} (st : CacheManager V) (ns : CacheNamespace)
    (key : String) (now : Nat)
    (hmem : mapGet st.memory.cache (CacheManager.makeKey ns key) = none)
    (hfile : mapGet st.file (CacheManager.makeKey ns key) = none) :
    st.get ns key now = (⟨none, false, none⟩,
      { st with memory := { st.memory with misses := st.memory.misses + 1 } }) := by
  have hm : st.memory.get now (CacheManager.makeKey ns key) =
      (none, { st.memory with misses := st.memory.misses + 1 }) := by
    simp [MemoryCache.get, hmem]
  have hf : FileCache.get st.file now (CacheManager.makeKey ns key) = (none, st.file) := by
    simp [FileCache.get, hfile]
  cases hen : st.enableFileCache <;> simp [CacheManager.get, hm, hf, hen]

theorem CacheManager.get_memory_hit {V : Type} (st : CacheManager V) (ns : CacheNamespace)
    (key : String) (now : Nat) (e : CacheEntry V) (v : V)
    (he : mapGet st.memory.cache (CacheManager.makeKey ns key) = some e)
    (hexp : ¬ now > e.expiresAt) (hd : e.data = some v) :
    st.get ns key now = (⟨some v, true, some 0⟩,
      { st with memory := { st.memory with
          cache := mapSet st.memory.cache (CacheManager.makeKey ns key)
            { e with accessedAt := now },
          hits := st.memory.hits + 1 } }) := by
  have hm : st.memory.get now (CacheManager.makeKey ns key) =
      (e.data, { st.memory with
        cache := mapSet st.memory.cache (CacheManager.makeKey ns key)
          { e with accessedAt := now },
        hits := st.memory.hits + 1 }) := by
    simp [MemoryCache.get, he, hexp]
  simp only [CacheManager.get, hm, hd]
  simp [MemoryCache.getAge, mapGet_mapSet_self]

theorem CacheManager.set_memory_mapGet {V : Type} (st : CacheManager V)
    (ns : CacheNamespace) (key : String) (value : Option V) (customTtl : Option Nat)
    (now : Nat) :
    mapGet (st.set ns key value customTtl now).memory.cache
      (CacheManager.makeKey ns key) =
      some ⟨value, now + customTtl.getD (CacheManager.getTtl ns), now⟩ := by
  simp only [CacheManager.set]
  split <;> simp [MemoryCache.set, mapGet_mapSet_self]

/-- C2 counterexample: `getOrFetch` with a `fetchFn` resolving to
`null`, called twice in immediate sequence on an empty cache, invokes
the fetch BOTH times (the stored `null` is indistinguishable from a
miss) and the second call reports `cached = false` — refuting both the
at-most-once and the `fromCache = true` parts of the claim. -/
theorem getOrFetch_twice_cex :
    ((CacheManager.getOrFetch (V := Nat) ⟨⟨[], 100, 300000, 0, 0⟩, [], true⟩
        CacheNamespace.traderaSearch "q" none none 0).2.1 = true) ∧
    (((CacheManager.getOrFetch (V := Nat) ⟨⟨[], 100, 300000, 0, 0⟩, [], true⟩
        CacheNamespace.traderaSearch "q" none none 0).2.2.getOrFetch
        CacheNamespace.traderaSearch "q" none none 0).2.1 = true) ∧
    (((CacheManager.getOrFetch (V := Nat) ⟨⟨[], 100, 300000, 0, 0⟩, [], true⟩
        CacheNamespace.traderaSearch "q" none none 0).2.2.getOrFetch
        CacheNamespace.traderaSearch "q" none none 0).1.cached = false) := by
  refine ⟨by rfl, by rfl, by rfl⟩

/-- C2 (amended): for a namespace/key absent from both tiers and a
`fetchFn` resolving to a non-null value, two sequential `getOrFetch`
calls with no intervening time passage beyond the namespace TTL invoke
the fetch exactly once — on the first call, which returns the fetched
value uncached — and the second call returns the value with
`cached = true` without invoking the fetch.  (The provisos are forced:
a null-resolving fetch is re-invoked every call, and a first call that
hits a pre-existing entry about to expire can make the second call
fetch.) -/
theorem getOrFetch_twice {V : Type} (st : CacheManager V) (ns : CacheNamespace)
    (key : String) (v : V) (t₁ t₂ : Nat)
    (hmem : mapGet st.memory.cache (CacheManager.makeKey ns key) = none)
    (hfile : mapGet st.file (CacheManager.makeKey ns key) = none)
    (ht : ¬ t₂ > t₁ + CacheManager.getTtl ns) :
    (st.getOrFetch ns key (some v) none t₁).2.1 = true ∧
    (st.getOrFetch ns key (some v) none t₁).1 = ⟨some v, false, none⟩ ∧
    ((st.getOrFetch ns key (some v) none t₁).2.2.getOrFetch ns key (some v) none t₂).2.1
      = false ∧
    ((st.getOrFetch ns key (some v) none t₁).2.2.getOrFetch ns key (some v) none t₂).1.data
      = some v ∧
    ((st.getOrFetch ns key (some v) none t₁).2.2.getOrFetch ns key (some v) none t₂).1.cached
      = true := by
  have hg1 := CacheManager.get_miss st ns key t₁ hmem hfile
  have hfetch1 : st.getOrFetch ns key (some v) none t₁ =
      (⟨some v, false, none⟩, true,
        CacheManager.set
          { st with memory := { st.memory with misses := st.memory.misses + 1 } }
          ns key (some v) none t₁) := by
    simp [CacheManager.getOrFetch, hg1]
  have hmem2 := CacheManager.set_memory_mapGet
      { st with memory := { st.memory with misses := st.memory.misses + 1 } }
      ns key (some v) none t₁
  have hg2 := CacheManager.get_memory_hit
      (CacheManager.set
        { st with memory := { st.memory with misses := st.memory.misses + 1 } }
        ns key (some v) none t₁)
      ns key t₂ ⟨some v, t₁ + CacheManager.getTtl ns, t₁⟩ v hmem2 ht rfl
  have hfetch2 :
      (CacheManager.set
        { st with memory := { st.memory with misses := st.memory.misses + 1 } }
        ns key (some v) none t₁).getOrFetch ns key (some v) none t₂ =
      (⟨some v, true, some 0⟩, false,
        (CacheManager.get
          (CacheManager.set
            { st with memory := { st.memory with misses := st.memory.misses + 1 } }
            ns key (some v) none t₁) ns key t₂).2) := by
    simp [CacheManager.getOrFetch, hg2]
  rw [hfetch1]
  exact ⟨rfl, rfl, by rw [hfetch2], by rw [hfetch2], by rw [hfetch2]⟩

/-- Witness for the C2 theorem: empty cache, fetch resolving 7 at time
0, second call at time 1000 (within the 5-minute tradera:search TTL). -/
theorem getOrFetch_twice_witness :
    mapGet ([] : List (String × CacheEntry Nat)) "tradera:search:q" = none ∧
    ((CacheManager.getOrFetch (V := Nat) ⟨⟨[], 100, 300000, 0, 0⟩, [], true⟩
        CacheNamespace.traderaSearch "q" (some 7) none 0).2.2.getOrFetch
        CacheNamespace.traderaSearch "q" (some 7) none 1000).1.cached = true :=
  ⟨by rfl,
    (getOrFetch_twice ⟨⟨[], 100, 300000, 0, 0⟩, [], true⟩
      CacheNamespace.traderaSearch "q" 7 0 1000
      (by rfl) (by rfl) (by decide)).2.2.2.2⟩

theorem CacheManager.get_none {V : Type} (st : CacheManager V) (ns : CacheNamespace)
    (key : String) (now : Nat)
    (hm : (st.memory.get now (CacheManager.makeKey ns key)).1 = none)
    (hf : (FileCache.get st.file now (CacheManager.makeKey ns key)).1 = none) :
    (st.get ns key now).1 = ⟨none, false, none⟩ := by
  simp only [CacheManager.get, hm]
  split <;> simp [hf]

theorem CacheManager.set_file_enable {V : Type} (st : CacheManager V)
    (ns : CacheNamespace) (key : String) (value : Option V) (customTtl : Option Nat)
    (now : Nat) :
    (st.set ns key value customTtl now).file =
      (if st.enableFileCache && ns.isTradera then
        FileCache.set st.file now (CacheManager.makeKey ns key) value
          (customTtl.getD (CacheManager.getTtl ns))
      else st.file) ∧
    (st.set ns key value customTtl now).enableFileCache = st.enableFileCache := by
  simp only [CacheManager.set]
  split <;> simp_all

/-- C10 (confirmed): when `fetchFn` resolves to `null`, `getOrFetch`
returns `null` uncached and stores a `null`-data entry with the full
namespace TTL in the memory tier; yet the stored `null` is
indistinguishable from a miss: while the entry is still unexpired,
every subsequent `get` for the namespace/key reports absent with
`cached = false`, and every subsequent `getOrFetch` invokes its fetch
again. -/
theorem getOrFetch_null_sentinel {V : Type} (st : CacheManager V) (ns : CacheNamespace)
    (key : String) (w : Option V) (t₁ t₂ : Nat)
    (hmem : mapGet st.memory.cache (CacheManager.makeKey ns key) = none)
    (hfile : mapGet st.file (CacheManager.makeKey ns key) = none)
    (ht : ¬ t₂ > t₁ + CacheManager.getTtl ns) :
    (st.getOrFetch ns key none none t₁).1 = ⟨none, false, none⟩ ∧
    (st.getOrFetch ns key none none t₁).2.1 = true ∧
    mapGet (st.getOrFetch ns key none none t₁).2.2.memory.cache
      (CacheManager.makeKey ns key) =
      some ⟨none, t₁ + CacheManager.getTtl ns, t₁⟩ ∧
    ((st.getOrFetch ns key none none t₁).2.2.get ns key t₂).1 = ⟨none, false, none⟩ ∧
    ((st.getOrFetch ns key none none t₁).2.2.getOrFetch ns key w none t₂).2.1 = true := by
  have hg1 := CacheManager.get_miss st ns key t₁ hmem hfile
  have hfetch1 : st.getOrFetch ns key none none t₁ =
      (⟨none, false, none⟩, true,
        CacheManager.set
          { st with memory := { st.memory with misses := st.memory.misses + 1 } }
          ns key none none t₁) := by
    simp [CacheManager.getOrFetch, hg1]
  have hmem2 := CacheManager.set_memory_mapGet
      { st with memory := { st.memory with misses := st.memory.misses + 1 } }
      ns key none none t₁
  have hfe := CacheManager.set_file_enable
      { st with memory := { st.memory with misses := st.memory.misses + 1 } }
      ns key none none t₁
  have hm2 : ((CacheManager.set
      { st with memory := { st.memory with misses := st.memory.misses + 1 } }
      ns key none none t₁).memory.get t₂ (CacheManager.makeKey ns key)).1 = none := by
    simp [MemoryCache.get, hmem2, ht]
  have hf2 : (FileCache.get (CacheManager.set
      { st with memory := { st.memory with misses := st.memory.misses + 1 } }
      ns key none none t₁).file t₂ (CacheManager.makeKey ns key)).1 = none := by
    rw [hfe.1]
    by_cases hc : st.enableFileCache && ns.isTradera
    · simp only [if_pos hc]
      simp [FileCache.set, FileCache.get, mapGet_mapSet_self, ht]
    · simp only [if_neg hc]
      simp [FileCache.get, hfile]
  have hg2 := CacheManager.get_none
      (CacheManager.set
        { st with memory := { st.memory with misses := st.memory.misses + 1 } }
        ns key none none t₁) ns key t₂ hm2 hf2
  rw [hfetch1]
  refine ⟨rfl, rfl, hmem2, hg2, ?_⟩
  simp [CacheManager.getOrFetch, hg2]

/-- Witness for the C10 theorem: fetch resolving null at time 0, then a
getOrFetch at time 1000 fetches again. -/
theorem getOrFetch_null_sentinel_witness :
    mapGet ([] : List (String × CacheEntry Nat)) "tradera:search:q" = none ∧
    ((CacheManager.getOrFetch (V := Nat) ⟨⟨[], 100, 300000, 0, 0⟩, [], true⟩
        CacheNamespace.traderaSearch "q" none none 0).2.2.getOrFetch
        CacheNamespace.traderaSearch "q" (some 3) none 1000).2.1 = true :=
  ⟨by rfl,
    (getOrFetch_null_sentinel ⟨⟨[], 100, 300000, 0, 0⟩, [], true⟩
      CacheNamespace.traderaSearch "q" (some 3) 0 1000
      (by rfl) (by rfl) (by decide)).2.2.2.2⟩

theorem mapHas_of_mem {α : Type} (m : List (String × α)) (k : String) (v : α)
    (h : (k, v) ∈ m) : mapHas m k = true := by
  induction m with
  | nil => simp at h
  | cons p rest ih =>
    obtain ⟨k₁, v₁⟩ := p
    by_cases h₁ : k₁ = k
    · simp [mapHas, mapGet, h₁]
    · rcases List.mem_cons.mp h with hh | hh
      · exact absurd (congrArg Prod.fst hh).symm h₁
      · simpa [mapHas, mapGet, h₁] using ih hh

theorem mapGet_eq_none_of_has_false {α : Type} (m : List (String × α)) (k : String)
    (h : mapHas m k = false) : mapGet m k = none := by
  cases hg : mapGet m k with
  | none => rfl
  | some v => simp [mapHas, hg] at h

theorem findLRU_of_ne_nil {V : Type} (l : List (String × CacheEntry V)) (h : l ≠ []) :
    ∃ k₀ t₀, findLRU l none = some (k₀, t₀) := by
  match l, h with
  | (k, e) :: rest, _ =>
    obtain ⟨⟨k₀, t₀⟩, hq⟩ := findLRU_isSome rest (k, e.accessedAt)
    exact ⟨k₀, t₀, by simpa [findLRU] using hq⟩

/-- C5 counterexample: two concrete `set`s whose result exceeds
`maxSize`.  First, with `maxSize = 0` the eviction scan finds nothing
to evict (the map is empty) and the insert still happens, giving size
1 > 0.  Second, with `maxSize = 1` and the sole (least-recently-
accessed) key being the empty string, the truthiness guard
`if (oldestKey)` skips the eviction, giving size 2 > 1. -/
theorem memory_lru_invariant_cex :
    ((MemoryCache.set (V := Nat) ⟨[], 0, 300000, 0, 0⟩ 0 "a" (some 1) none).cache.length >
      (⟨[], 0, 300000, 0, 0⟩ : MemoryCache Nat).maxSize) ∧
    ((MemoryCache.set (V := Nat) ⟨[("", ⟨some 1, 10000, 5⟩)], 1, 300000, 0, 0⟩
        6 "x" (some 2) none).cache.length >
      (⟨[("", ⟨some 1, 10000, 5⟩)], 1, 300000, 0, 0⟩ : MemoryCache Nat).maxSize) := by
  constructor <;> decide

/-- C5 (amended): provided `maxSize ≥ 1` and no key is the empty
string (the source's `if (oldestKey)` truthiness guard skips eviction
for the falsy empty-string key, and with `maxSize = 0` there is nothing
to evict), the memory tier's entry count never exceeds `maxSize` after
any `set`; overwriting an already-present key triggers no eviction
(size and all other keys are unchanged); and inserting a new key into a
full tier with distinct keys removes exactly one entry — one whose
`accessedAt` is minimal (the first such in iteration order), every
other key being left untouched — leaving the size at `maxSize`. -/
theorem memory_lru_invariant {V : Type} (c : MemoryCache V) (now : Nat) (key : String)
    (value : Option V) (ttlMs : Option Nat) :
    (1 ≤ c.maxSize → c.cache.length ≤ c.maxSize → (∀ p ∈ c.cache, p.1 ≠ "") →
      (c.set now key value ttlMs).cache.length ≤ c.maxSize) ∧
    (mapHas c.cache key = true →
      (c.set now key value ttlMs).cache.length = c.cache.length ∧
      ∀ k', k' ≠ key →
        mapGet (c.set now key value ttlMs).cache k' = mapGet c.cache k') ∧
    (c.cache.length = c.maxSize → 1 ≤ c.maxSize → mapHas c.cache key = false →
      (c.cache.map Prod.fst).Nodup → (∀ p ∈ c.cache, p.1 ≠ "") →
      ∃ k₀ t₀, findLRU c.cache none = some (k₀, t₀) ∧
        (∀ p ∈ c.cache, t₀ ≤ p.2.accessedAt) ∧
        mapHas c.cache k₀ = true ∧
        (c.set now key value ttlMs).cache.length = c.maxSize ∧
        mapGet (c.set now key value ttlMs).cache k₀ = none ∧
        (∀ k', k' ≠ key → k' ≠ k₀ →
          mapGet (c.set now key value ttlMs).cache k' = mapGet c.cache k')) := by
  refine ⟨?_, ?_, ?_⟩
  · intro hmax hlen hne
    by_cases hhas : mapHas c.cache key = true
    · have hB : (decide (c.cache.length ≥ c.maxSize) && !mapHas c.cache key) = false := by
        simp [hhas]
      simp only [MemoryCache.set, hB, Bool.false_eq_true, if_false]
      rw [length_mapSet_of_has _ _ _ hhas]
      exact hlen
    · have hhasf : mapHas c.cache key = false := by simpa using hhas
      by_cases hge : c.cache.length ≥ c.maxSize
      · have hB : (decide (c.cache.length ≥ c.maxSize) && !mapHas c.cache key) = true := by
          simp [hhasf, hge]
        have hnil : c.cache ≠ [] := by
          intro hc
          rw [hc] at hge
          simp at hge
          omega
        obtain ⟨k₀, t₀, hfind⟩ := findLRU_of_ne_nil c.cache hnil
        have hmem' : ∃ e, (k₀, e) ∈ c.cache ∧ e.accessedAt = t₀ := by
          rcases findLRU_mem c.cache none k₀ t₀ hfind with hacc | h
          · exact absurd hacc (by simp)
          · exact h
        obtain ⟨e₀, hmem₀, -⟩ := hmem'
        have hk₀ : k₀ ≠ "" := hne (k₀, e₀) hmem₀
        have hevict : c.evictLRU = { c with cache := mapDelete c.cache k₀ } := by
          simp [MemoryCache.evictLRU, hfind, hk₀]
        have hset : (c.set now key value ttlMs).cache =
            mapSet (mapDelete c.cache k₀) key
              ⟨value, now + ttlMs.getD c.defaultTtl, now⟩ := by
          simp [MemoryCache.set, hB, hevict]
        have hdel := length_mapDelete_lt c.cache k₀ (mapHas_of_mem _ _ _ hmem₀)
        have hkeynone : mapGet (mapDelete c.cache k₀) key = none := by
          by_cases hk : key = k₀
          · subst hk; exact mapGet_mapDelete_self _ _
          · rw [mapGet_mapDelete_of_ne _ _ _ hk]
            exact mapGet_eq_none_of_has_false _ _ hhasf
        have hlen₂ := length_mapSet_of_not_has (mapDelete c.cache k₀) key
          ⟨value, now + ttlMs.getD c.defaultTtl, now⟩ (by simp [mapHas, hkeynone])
        rw [hset, hlen₂]
        omega
      · have hB : (decide (c.cache.length ≥ c.maxSize) && !mapHas c.cache key) = false := by
          simp [hge]
        simp only [MemoryCache.set, hB, Bool.false_eq_true, if_false]
        rw [length_mapSet_of_not_has _ _ _ hhasf]
        omega
  · intro hhas
    have hB : (decide (c.cache.length ≥ c.maxSize) && !mapHas c.cache key) = false := by
      simp [hhas]
    constructor
    · simp only [MemoryCache.set, hB, Bool.false_eq_true, if_false]
      exact length_mapSet_of_has _ _ _ hhas
    · intro k' hk'
      simp only [MemoryCache.set, hB, Bool.false_eq_true, if_false]
      exact mapGet_mapSet_of_ne _ _ _ _ hk'
  · intro hlen hmax hhasf hnodup hne
    have hge : c.cache.length ≥ c.maxSize := le_of_eq hlen.symm
    have hB : (decide (c.cache.length ≥ c.maxSize) && !mapHas c.cache key) = true := by
      simp [hhasf, hge]
    have hnil : c.cache ≠ [] := by
      intro hc
      rw [hc] at hlen
      simp at hlen
      omega
    obtain ⟨k₀, t₀, hfind⟩ := findLRU_of_ne_nil c.cache hnil
    have hmem' : ∃ e, (k₀, e) ∈ c.cache ∧ e.accessedAt = t₀ := by
      rcases findLRU_mem c.cache none k₀ t₀ hfind with hacc | h
      · exact absurd hacc (by simp)
      · exact h
    obtain ⟨e₀, hmem₀, -⟩ := hmem'
    have hk₀ : k₀ ≠ "" := hne (k₀, e₀) hmem₀
    have hk₀key : k₀ ≠ key :=
      mapGet_eq_none_of_not_mem c.cache key (mapGet_eq_none_of_has_false _ _ hhasf)
        (k₀, e₀) hmem₀
    have hevict : c.evictLRU = { c with cache := mapDelete c.cache k₀ } := by
      simp [MemoryCache.evictLRU, hfind, hk₀]
    have hset : (c.set now key value ttlMs).cache =
        mapSet (mapDelete c.cache k₀) key
          ⟨value, now + ttlMs.getD c.defaultTtl, now⟩ := by
      simp [MemoryCache.set, hB, hevict]
    have hhask₀ := mapHas_of_mem _ _ _ hmem₀
    have hdel := length_mapDelete_of_nodup c.cache k₀ hnodup hhask₀
    have hkeynone : mapGet (mapDelete c.cache k₀) key = none := by
      rw [mapGet_mapDelete_of_ne _ _ _ (fun hh => hk₀key hh.symm)]
      exact mapGet_eq_none_of_has_false _ _ hhasf
    have hlen₂ := length_mapSet_of_not_has (mapDelete c.cache k₀) key
      ⟨value, now + ttlMs.getD c.defaultTtl, now⟩ (by simp [mapHas, hkeynone])
    refine ⟨k₀, t₀, hfind, findLRU_min c.cache none k₀ t₀ hfind, hhask₀, ?_, ?_, ?_⟩
    · rw [hset, hlen₂]
      omega
    · rw [hset, mapGet_mapSet_of_ne _ _ _ _ hk₀key, mapGet_mapDelete_self]
    · intro k' hk'key hk'k₀
      rw [hset, mapGet_mapSet_of_ne _ _ _ _ hk'key,
        mapGet_mapDelete_of_ne _ _ _ hk'k₀]

/-- Witness for the C5 theorem: a full two-entry tier (`maxSize = 2`)
receiving a third distinct key evicts the minimal-`accessedAt` entry. -/
theorem memory_lru_invariant_witness :
    ((⟨[("a", ⟨some 1, 10000, 5⟩), ("b", ⟨some 2, 10000, 3⟩)], 2, 300000, 0, 0⟩ :
        MemoryCache Nat).cache.length = 2) ∧
    (∃ k₀ t₀,
      findLRU ([("a", ⟨some 1, 10000, 5⟩), ("b", ⟨some 2, 10000, 3⟩)] :
        List (String × CacheEntry Nat)) none = some (k₀, t₀) ∧
      (∀ p ∈ ([("a", ⟨some 1, 10000, 5⟩), ("b", ⟨some 2, 10000, 3⟩)] :
        List (String × CacheEntry Nat)), t₀ ≤ p.2.accessedAt) ∧
      mapHas ([("a", ⟨some 1, 10000, 5⟩), ("b", ⟨some 2, 10000, 3⟩)] :
        List (String × CacheEntry Nat)) k₀ = true ∧
      (MemoryCache.set (V := Nat)
        ⟨[("a", ⟨some 1, 10000, 5⟩), ("b", ⟨some 2, 10000, 3⟩)], 2, 300000, 0, 0⟩
        7 "c" (some 3) none).cache.length = 2 ∧
      mapGet (MemoryCache.set (V := Nat)
        ⟨[("a", ⟨some 1, 10000, 5⟩), ("b", ⟨some 2, 10000, 3⟩)], 2, 300000, 0, 0⟩
        7 "c" (some 3) none).cache k₀ = none ∧
      (∀ k', k' ≠ "c" → k' ≠ k₀ →
        mapGet (MemoryCache.set (V := Nat)
          ⟨[("a", ⟨some 1, 10000, 5⟩), ("b", ⟨some 2, 10000, 3⟩)], 2, 300000, 0, 0⟩
          7 "c" (some 3) none).cache k' =
        mapGet ([("a", ⟨some 1, 10000, 5⟩), ("b", ⟨some 2, 10000, 3⟩)] :
          List (String × CacheEntry Nat)) k')) :=
  ⟨by rfl,
    (memory_lru_invariant
      ⟨[("a", ⟨some 1, 10000, 5⟩), ("b", ⟨some 2, 10000, 3⟩)], 2, 300000, 0, 0⟩
      7 "c" (some 3) none).2.2 (by rfl) (by decide) (by rfl) (by decide) (by decide)⟩

/-- C1 counterexample: with an exhausted budget (`remaining = 0`) and a
cold cache, `getCategories` does not surface a quota-exhaustion
failure: it returns the plain empty list — exactly the silent empty
result the claim rules out. -/
theorem tradera_quota_silent_empty_cex :
    (TraderaClient.canMakeApiCall ⟨100, 100, 10 ^ 15, 0⟩ 0).1 = false ∧
    (CacheManager.get (V := List Nat) ⟨⟨[], 100, 300000, 0, 0⟩, [], true⟩
        CacheNamespace.traderaCategories "all" 0).1.data = none ∧
    (TraderaClient.getCategories (γ := Nat) ⟨⟨[], 100, 300000, 0, 0⟩, [], true⟩
        ⟨100, 100, 10 ^ 15, 0⟩ 0 false UpstreamCall.rejected).1 =
      OpOutcome.ok [] := by
  refine ⟨by decide, by rfl, by rfl⟩

/-- C1 (amended): on a cache miss under quota exhaustion
(`canMakeApiCall` false) only `search` surfaces the distinct
budget-exhaustion failure carrying `used`, `dailyLimit` and
`resetTime`; the other four upstream-backed operations silently
degrade — `getItem` and `getFeedbackSummary` return `null`, and
`getCategories` and `getCounties` return the empty list. -/
theorem tradera_quota_exhaustion_behaviour
    {ι γ δ φ : Type}
    (st_s : CacheManager (TraderaSearchResult ι)) (st_i : CacheManager ι)
    (st_c : CacheManager (List γ)) (st_y : CacheManager (List δ))
    (st_f : CacheManager φ) (b : TraderaApiBudget) (now : Nat)
    (q itemId userId : String)
    (u_s : UpstreamCall (List ι)) (u_i : UpstreamCall (Option ι))
    (u_c : UpstreamCall (List γ)) (u_y : UpstreamCall (List δ))
    (u_f : UpstreamCall (Option φ))
    (hb : (TraderaClient.canMakeApiCall b now).1 = false)
    (h1 : (st_s.get .traderaSearch q now).1.data = none)
    (h2 : (st_i.get .traderaItem itemId now).1.data = none)
    (h3 : (st_c.get .traderaCategories "all" now).1.data = none)
    (h4 : (st_y.get .traderaCounties "all" now).1.data = none)
    (h5 : (st_f.get .traderaFeedback userId now).1.data = none) :
    (TraderaClient.search st_s b now q false u_s).1 =
      OpOutcome.quotaError (TraderaClient.checkBudgetReset b now).used
        (TraderaClient.checkBudgetReset b now).dailyLimit
        (TraderaClient.checkBudgetReset b now).resetTime ∧
    (TraderaClient.getItem st_i b now itemId false u_i).1 = OpOutcome.ok none ∧
    (TraderaClient.getCategories st_c b now false u_c).1 = OpOutcome.ok [] ∧
    (TraderaClient.getCounties st_y b now false u_y).1 = OpOutcome.ok [] ∧
    (TraderaClient.getFeedbackSummary st_f b now userId u_f).1 = OpOutcome.ok none := by
  have hb' : (TraderaClient.checkBudgetReset b now).remaining ≤ 0 := by
    have hh := hb
    simp [TraderaClient.canMakeApiCall] at hh
    omega
  refine ⟨?_, ?_, ?_, ?_, ?_⟩
  · simp [TraderaClient.search, h1, TraderaClient.canMakeApiCall, hb']
  · simp [TraderaClient.getItem, h2, hb]
  · simp [TraderaClient.getCategories, h3, hb]
  · simp [TraderaClient.getCounties, h4, hb]
  · simp [TraderaClient.getFeedbackSummary, h5, hb]

/-- Witness for the C1 theorem: exhausted budget (used 100 of 100),
empty caches, search surfaces the quota error. -/
theorem tradera_quota_exhaustion_behaviour_witness :
    (TraderaClient.canMakeApiCall ⟨100, 100, 10 ^ 15, 0⟩ 0).1 = false ∧
    (TraderaClient.search (ι := Nat) ⟨⟨[], 100, 300000, 0, 0⟩, [], true⟩
        ⟨100, 100, 10 ^ 15, 0⟩ 0 "q" false UpstreamCall.rejected).1 =
      OpOutcome.quotaError
        (TraderaClient.checkBudgetReset ⟨100, 100, 10 ^ 15, 0⟩ 0).used
        (TraderaClient.checkBudgetReset ⟨100, 100, 10 ^ 15, 0⟩ 0).dailyLimit
        (TraderaClient.checkBudgetReset ⟨100, 100, 10 ^ 15, 0⟩ 0).resetTime :=
  ⟨by decide,
    (tradera_quota_exhaustion_behaviour (ι := Nat) (γ := Nat) (δ := Nat) (φ := Nat)
      ⟨⟨[], 100, 300000, 0, 0⟩, [], true⟩ ⟨⟨[], 100, 300000, 0, 0⟩, [], true⟩
      ⟨⟨[], 100, 300000, 0, 0⟩, [], true⟩ ⟨⟨[], 100, 300000, 0, 0⟩, [], true⟩
      ⟨⟨[], 100, 300000, 0, 0⟩, [], true⟩ ⟨100, 100, 10 ^ 15, 0⟩ 0
      "q" "1" "2"
      UpstreamCall.rejected UpstreamCall.rejected UpstreamCall.rejected
      UpstreamCall.rejected UpstreamCall.rejected
      (by decide) (by rfl) (by rfl) (by rfl) (by rfl) (by rfl)).1⟩

/-- C3 counterexample: a dispatched `search` whose upstream SOAP call
throws leaves `used` at its pre-dispatch value 5 — not 5 + 1 as the
claim requires — because `recordApiCall()` runs only after the awaited
call resolves. -/
theorem budget_record_position_cex :
    (TraderaClient.canMakeApiCall ⟨100, 5, 10 ^ 15, 95⟩ 0).1 = true ∧
    (TraderaClient.search (ι := Nat) ⟨⟨[], 100, 300000, 0, 0⟩, [], true⟩
        ⟨100, 5, 10 ^ 15, 95⟩ 0 "q" false UpstreamCall.rejected).1 = OpOutcome.err ∧
    (TraderaClient.search (ι := Nat) ⟨⟨[], 100, 300000, 0, 0⟩, [], true⟩
        ⟨100, 5, 10 ^ 15, 95⟩ 0 "q" false UpstreamCall.rejected).2.2.used = 5 ∧
    ¬ (TraderaClient.search (ι := Nat) ⟨⟨[], 100, 300000, 0, 0⟩, [], true⟩
        ⟨100, 5, 10 ^ 15, 95⟩ 0 "q" false UpstreamCall.rejected).2.2.used = 5 + 1 := by
  refine ⟨by decide, by rfl, by rfl, by decide⟩

/-- C3 (amended): in every upstream-calling operation of the Tradera
client (search, getItem, getCategories, getCounties,
getFeedbackSummary), the `used` counter is incremented immediately
AFTER the upstream call resolves, not before dispatch: a dispatched
call whose upstream call throws leaves the budget entirely unchanged
(no quota consumed; for `search` the error is re-thrown), while a
successful dispatch increments `used` by exactly one — regardless of
the resolved payload — and recomputes `remaining = dailyLimit - used`
(stated with no reset boundary crossed). -/
theorem budget_record_position
    {ι γ δ φ : Type}
    (st_s : CacheManager (TraderaSearchResult ι)) (st_i : CacheManager ι)
    (st_c : CacheManager (List γ)) (st_y : CacheManager (List δ))
    (st_f : CacheManager φ) (b : TraderaApiBudget) (now : Nat)
    (q itemId userId : String)
    (hcan : (TraderaClient.canMakeApiCall b now).1 = true)
    (hnr : ¬ now > b.resetTime)
    (h1 : (st_s.get .traderaSearch q now).1.data = none)
    (h2 : (st_i.get .traderaItem itemId now).1.data = none)
    (h3 : (st_c.get .traderaCategories "all" now).1.data = none)
    (h4 : (st_y.get .traderaCounties "all" now).1.data = none)
    (h5 : (st_f.get .traderaFeedback userId now).1.data = none) :
    ((TraderaClient.search st_s b now q false UpstreamCall.rejected).1 =
        OpOutcome.err ∧
      (TraderaClient.search st_s b now q false UpstreamCall.rejected).2.2 = b) ∧
    (TraderaClient.getItem st_i b now itemId false UpstreamCall.rejected).2.2 = b ∧
    (TraderaClient.getCategories st_c b now false UpstreamCall.rejected).2.2 = b ∧
    (TraderaClient.getCounties st_y b now false UpstreamCall.rejected).2.2 = b ∧
    (TraderaClient.getFeedbackSummary st_f b now userId
        UpstreamCall.rejected).2.2 = b ∧
    (∀ items : List ι,
      (TraderaClient.search st_s b now q false
          (UpstreamCall.resolved items)).2.2.used = b.used + 1 ∧
      (TraderaClient.search st_s b now q false
          (UpstreamCall.resolved items)).2.2.remaining
        = (b.dailyLimit : Int) - ((b.used + 1 : Nat) : Int)) ∧
    (∀ resp : Option ι,
      (TraderaClient.getItem st_i b now itemId false
          (UpstreamCall.resolved resp)).2.2.used = b.used + 1) ∧
    (∀ cats : List γ,
      (TraderaClient.getCategories st_c b now false
          (UpstreamCall.resolved cats)).2.2.used = b.used + 1) ∧
    (∀ cs : List δ,
      (TraderaClient.getCounties st_y b now false
          (UpstreamCall.resolved cs)).2.2.used = b.used + 1) ∧
    (∀ resp : Option φ,
      (TraderaClient.getFeedbackSummary st_f b now userId
          (UpstreamCall.resolved resp)).2.2.used = b.used + 1) := by
  have hcr : TraderaClient.checkBudgetReset b now = b := by
    simp [TraderaClient.checkBudgetReset, hnr]
  have hcan' : ¬ b.remaining ≤ 0 := by
    have hh := hcan
    simp [TraderaClient.canMakeApiCall, hcr] at hh
    omega
  refine ⟨⟨?_, ?_⟩, ?_, ?_, ?_, ?_, ?_, ?_, ?_, ?_, ?_⟩
  · simp [TraderaClient.search, h1, TraderaClient.canMakeApiCall, hcr, hcan']
  · simp [TraderaClient.search, h1, TraderaClient.canMakeApiCall, hcr, hcan']
  · simp [TraderaClient.getItem, h2, TraderaClient.canMakeApiCall, hcr, hcan']
  · simp [TraderaClient.getCategories, h3, TraderaClient.canMakeApiCall, hcr, hcan']
  · simp [TraderaClient.getCounties, h4, TraderaClient.canMakeApiCall, hcr, hcan']
  · simp [TraderaClient.getFeedbackSummary, h5, TraderaClient.canMakeApiCall,
      hcr, hcan']
  · intro items
    constructor <;>
      simp [TraderaClient.search, h1, TraderaClient.canMakeApiCall,
        TraderaClient.recordApiCall, hcr, hcan']
  · intro resp
    cases resp <;>
      simp [TraderaClient.getItem, h2, TraderaClient.canMakeApiCall,
        TraderaClient.recordApiCall, hcr, hcan']
  · intro cats
    simp [TraderaClient.getCategories, h3, TraderaClient.canMakeApiCall,
      TraderaClient.recordApiCall, hcr, hcan']
  · intro cs
    simp [TraderaClient.getCounties, h4, TraderaClient.canMakeApiCall,
      TraderaClient.recordApiCall, hcr, hcan']
  · intro resp
    cases resp <;>
      simp [TraderaClient.getFeedbackSummary, h5, TraderaClient.canMakeApiCall,
        TraderaClient.recordApiCall, hcr, hcan']

/-- Witness for the C3 theorem: budget at used 5 of 100, empty caches;
a rejected upstream `search` leaves the budget unchanged, and a
resolved one takes `used` to 6. -/
theorem budget_record_position_witness :
    (TraderaClient.canMakeApiCall ⟨100, 5, 10 ^ 15, 95⟩ 0).1 = true ∧
    (TraderaClient.search (ι := Nat) ⟨⟨[], 100, 300000, 0, 0⟩, [], true⟩
        ⟨100, 5, 10 ^ 15, 95⟩ 0 "q" false UpstreamCall.rejected).2.2 =
      ⟨100, 5, 10 ^ 15, 95⟩ ∧
    (TraderaClient.search (ι := Nat) ⟨⟨[], 100, 300000, 0, 0⟩, [], true⟩
        ⟨100, 5, 10 ^ 15, 95⟩ 0 "q" false (UpstreamCall.resolved [4])).2.2.used =
      5 + 1 ∧
    (TraderaClient.getCategories (γ := Nat) ⟨⟨[], 100, 300000, 0, 0⟩, [], true⟩
        ⟨100, 5, 10 ^ 15, 95⟩ 0 false (UpstreamCall.resolved [2])).2.2.used =
      5 + 1 := by
  have h := budget_record_position (ι := Nat) (γ := Nat) (δ := Nat) (φ := Nat)
    ⟨⟨[], 100, 300000, 0, 0⟩, [], true⟩ ⟨⟨[], 100, 300000, 0, 0⟩, [], true⟩
    ⟨⟨[], 100, 300000, 0, 0⟩, [], true⟩ ⟨⟨[], 100, 300000, 0, 0⟩, [], true⟩
    ⟨⟨[], 100, 300000, 0, 0⟩, [], true⟩ ⟨100, 5, 10 ^ 15, 95⟩ 0
    "q" "1" "2"
    (by decide) (by decide) (by rfl) (by rfl) (by rfl) (by rfl) (by rfl)
  exact ⟨by decide, h.1.2, (h.2.2.2.2.2.1 [4]).1, h.2.2.2.2.2.2.2.1 [2]⟩
